import Mathlib

/-!
Verification development for the polytrage repository: a shallow embedding of
its core modules (`models.py`, `arbitrage.py`, `profit.py`, `scanner.py`,
`api.py`, `bot.py`) together with theorems settling the frozen claims about
the natural-language specification.  Machine floats of the source are
idealised as exact rationals (`ℚ`) where only field arithmetic occurs, and as
extended reals (`EReal`) where the source manipulates `float('inf')` and
`math.log`.
-/

namespace Polytrage

/-! ### Data model (`models.py`) -/

inductive MarketType where
  | binary
  | negrisk
deriving DecidableEq, Repr

structure OrderBookLevel where
  price : ℚ
  size : ℚ
deriving DecidableEq, Repr

structure OrderBook where
  bids : List OrderBookLevel := []
  asks : List OrderBookLevel := []
deriving DecidableEq, Repr

/-- `OrderBook.best_bid`: `self.bids[0].price if self.bids else None`. -/
def OrderBook.bestBid (ob : OrderBook) : Option ℚ :=
  ob.bids.head?.map (·.price)

/-- `OrderBook.best_ask`: `self.asks[0].price if self.asks else None`. -/
def OrderBook.bestAsk (ob : OrderBook) : Option ℚ :=
  ob.asks.head?.map (·.price)

structure Outcome where
  name : String
  token_id : String
  price : ℚ
  best_ask : Option ℚ := none
  best_bid : Option ℚ := none
deriving DecidableEq, Repr

structure Market where
  id : String
  question : String
  slug : String
  outcomes : List String
  clob_token_ids : List String
  outcome_prices : List ℚ
  neg_risk : Bool := false
  volume : ℚ := 0
  liquidity : ℚ := 0
  active : Bool := true
deriving DecidableEq, Repr

/-- `Market.market_type`: `NEGRISK if self.neg_risk else BINARY`. -/
def Market.marketType (m : Market) : MarketType :=
  if m.neg_risk then .negrisk else .binary

structure ArbitrageOpportunity where
  market : Market
  market_type : MarketType
  outcomes : List Outcome
  total_cost : ℚ
  gross_profit : ℚ
  net_profit : ℚ
  roi_pct : ℚ
  capital_required : ℚ
deriving DecidableEq, Repr

/-! ### Arbitrage evaluator (`arbitrage.py`)

Python's `round(x, 6)` (round-half-to-even on binary floats) is idealised as
round-to-nearest on `ℚ`; none of the claims depends on tie-breaking. -/

def round6 (x : ℚ) : ℚ := (round (x * 1000000) : ℚ) / 1000000

def round4 (x : ℚ) : ℚ := (round (x * 10000) : ℚ) / 10000

def DEFAULT_FEE_RATE : ℚ := 2 / 100

def MIN_PROFIT_THRESHOLD : ℚ := 5 / 1000

/-- `_evaluate_arbitrage` (`arbitrage.py:101-143`): core evaluation from an
outcome list whose `best_ask` fields supply the ask prices. -/
def evaluateArbitrage (market : Market) (outcomes : List Outcome)
    (feeRate minProfit : ℚ) : Option ArbitrageOpportunity :=
  let totalCost := (outcomes.filterMap (·.best_ask)).sum
  if 1 ≤ totalCost then
    none
  else
    let grossProfit := 1 - totalCost
    let netProfit := grossProfit * (1 - feeRate)
    if netProfit < minProfit then
      none
    else
      let roiPct := if 0 < totalCost then netProfit / totalCost * 100 else 0
      some {
        market := market
        market_type := market.marketType
        outcomes := outcomes
        total_cost := round6 totalCost
        gross_profit := round6 grossProfit
        net_profit := round6 netProfit
        roi_pct := round4 roiPct
        capital_required := round6 totalCost
      }

/-- The outcome-building loop of `detect_arbitrage_from_orderbooks`
(`arbitrage.py:36-46`): returns `none` as soon as some book has no ask.
Python's `market.outcomes[i]` indexing is total here via `getD`; the theorems
about it only concern inputs where the indices are in range or where the
indexed fields are irrelevant to the conclusion. -/
def mkOutcomesFromBooks (market : Market) : ℕ → List OrderBook → Option (List Outcome)
  | _, [] => some []
  | i, ob :: rest =>
    match ob.bestAsk with
    | none => none
    | some a =>
      (mkOutcomesFromBooks market (i + 1) rest).map fun os =>
        { name := market.outcomes.getD i ""
          token_id := market.clob_token_ids.getD i ""
          price := market.outcome_prices.getD i 0
          best_ask := some a
          best_bid := ob.bestBid } :: os

/-- `detect_arbitrage_from_orderbooks` (`arbitrage.py:21-48`). -/
def detectArbitrageFromOrderbooks (market : Market) (orderbooks : List OrderBook)
    (feeRate minProfit : ℚ) : Option ArbitrageOpportunity :=
  if orderbooks.length ≠ market.clob_token_ids.length then
    none
  else
    match mkOutcomesFromBooks market 0 orderbooks with
    | none => none
    | some outcomes => evaluateArbitrage market outcomes feeRate minProfit

/-- `detect_arbitrage_from_prices` (`arbitrage.py:51-71`). -/
def detectArbitrageFromPrices (market : Market) (askPrices : List ℚ)
    (feeRate minProfit : ℚ) : Option ArbitrageOpportunity :=
  if askPrices.length ≠ market.clob_token_ids.length then
    none
  else
    let outcomes := askPrices.enum.map fun p =>
      { name := market.outcomes.getD p.1 ""
        token_id := market.clob_token_ids.getD p.1 ""
        price := market.outcome_prices.getD p.1 0
        best_ask := some p.2
        best_bid := none : Outcome }
    evaluateArbitrage market outcomes feeRate minProfit

/-- `detect_arbitrage_from_midpoints` (`arbitrage.py:74-98`). -/
def detectArbitrageFromMidpoints (market : Market)
    (feeRate minProfit : ℚ) : Option ArbitrageOpportunity :=
  if market.outcome_prices.length < 2 then
    none
  else
    let outcomes := market.outcome_prices.enum.map fun p =>
      { name := market.outcomes.getD p.1 ""
        token_id := market.clob_token_ids.getD p.1 ""
        price := p.2
        best_ask := some p.2
        best_bid := none : Outcome }
    evaluateArbitrage market outcomes feeRate minProfit

/-- Total cost a best-ask evaluation sees: sum of the books' best asks. -/
def sumBestAsks (orderbooks : List OrderBook) : ℚ :=
  (orderbooks.filterMap OrderBook.bestAsk).sum

/-! ### Scanner (`scanner.py`) -/

structure ScanConfig where
  max_markets : ℕ := 100
  min_profit : ℚ := 5 / 1000
  fee_rate : ℚ := 2 / 100
  use_orderbooks : Bool := true
  min_liquidity : ℚ := 0
  min_volume : ℚ := 0
deriving DecidableEq, Repr

/-- `Scanner._filter_markets` (`scanner.py:108-121`): drop inactive markets,
markets below the liquidity/volume floors, and markets with fewer than 2
tradeable instruments. -/
def filterMarkets (cfg : ScanConfig) (markets : List Market) : List Market :=
  markets.filter fun m =>
    m.active && !decide (m.liquidity < cfg.min_liquidity) &&
      !decide (m.volume < cfg.min_volume) && !decide (m.clob_token_ids.length < 2)

/-- `Scanner._prefilter_with_midpoints` (`scanner.py:123-135`): keep markets
whose embedded reference prices sum below the relaxed ceiling `1.02`. -/
def prefilterWithMidpoints (markets : List Market) : List Market :=
  markets.filter fun m => decide (m.outcome_prices.sum < 51 / 50)

/-- The candidate list that `Scanner.scan` (`scanner.py:78-89`) hands to
`_deep_scan` when `use_orderbooks` is set: the liquidity/volume-filtered
markets surviving the midpoint pre-filter. -/
def scanDeepTargets (cfg : ScanConfig) (markets : List Market) : List Market :=
  prefilterWithMidpoints (filterMarkets cfg markets)

/-! ### Resilient scan loop (`bot.py:128-298`)

One tick of the loop body: `ScanTick.success` is a `scanner.scan()` call that
returned (its internally recorded per-market errors are non-fatal),
`ScanTick.failure` is an uncaught exception from the scanner.  The observable
effects modelled are the sleeps and the final circuit-breaker alert. -/

def INITIAL_BACKOFF : ℕ := 30

def MAX_BACKOFF : ℕ := 600

def MAX_CONSECUTIVE_FAILURES : ℕ := 10

inductive ScanTick where
  | success
  | failure
deriving DecidableEq, Repr

inductive LoopAction where
  | sleepInterval (secs : ℕ)
  | sleepBackoff (secs : ℕ)
  | finalAlert
deriving DecidableEq, Repr

structure LoopState where
  consecutive_failures : ℕ
  backoff : ℕ
deriving DecidableEq, Repr

/-- One iteration of the `while True` body of `run_scan_loop`
(`bot.py:181-285`) with `once = False`: returns the successor state, the
emitted actions, and whether the circuit breaker halted the loop. -/
def loopStep (interval : ℕ) (s : LoopState) : ScanTick → LoopState × List LoopAction × Bool
  | .success => (⟨0, INITIAL_BACKOFF⟩, [.sleepInterval interval], false)
  | .failure =>
    let f := s.consecutive_failures + 1
    if MAX_CONSECUTIVE_FAILURES ≤ f then
      (⟨f, s.backoff⟩, [.finalAlert], true)
    else
      (⟨f, min (s.backoff * 2) MAX_BACKOFF⟩, [.sleepBackoff s.backoff], false)

/-- The scan loop run over a finite trace of tick outcomes, accumulating the
emitted actions and reporting whether the circuit breaker tripped. -/
def runLoop (interval : ℕ) : LoopState → List ScanTick → List LoopAction × Bool
  | _, [] => ([], false)
  | s, t :: ts =>
    match loopStep interval s t with
    | (_, acts, true) => (acts, true)
    | (s', acts, false) =>
      let r := runLoop interval s' ts
      (acts ++ r.1, r.2)

/-- `startsWithFails k l`: the trace `l` begins with `k` consecutive failures. -/
def startsWithFails : ℕ → List ScanTick → Bool
  | 0, _ => true
  | _ + 1, [] => false
  | _ + 1, .success :: _ => false
  | k + 1, .failure :: ts => startsWithFails k ts

/-- `hasConsecFails k l`: somewhere in the trace `l` there are `k` consecutive
failures. -/
def hasConsecFails (k : ℕ) : List ScanTick → Bool
  | [] => startsWithFails k []
  | t :: ts => startsWithFails k (t :: ts) || hasConsecFails k ts

/-! ### Fetch client (`api.py`) -/

def MAX_RETRIES : ℕ := 3

/-- The observable outcome of one HTTP attempt inside
`PolymarketClient._request` (`api.py:76-102`): a decoded body, an
`httpx.HTTPStatusError` carrying the response status (raised by
`raise_for_status`, hence the status is at least 400), or an
`httpx.RequestError` (transport failure or timeout). -/
inductive Attempt (α : Type) where
  | ok (body : α)
  | httpError (status : ℕ)
  | transportError
deriving DecidableEq, Repr

/-- `Attempt.retryable`: the failures `_request` retries — a server-error
status (`≥ 500`) or a transport failure/timeout. -/
def Attempt.retryable {α : Type} : Attempt α → Bool
  | .ok _ => false
  | .httpError s => decide (500 ≤ s)
  | .transportError => true

inductive ReqResult (α : Type) where
  | success (body : α)
  | clientError (status : ℕ)
  | exhausted (last : Option (Attempt α))
deriving DecidableEq, Repr

/-- The retry loop of `_request` (`api.py:81-102`) over an oracle `att`
giving the outcome of each attempt: walks attempts `i, i+1, …` while `fuel`
remains, collecting the backoff sleeps (`RETRY_BACKOFF * 2 ** attempt` with
`RETRY_BACKOFF = 1`); a status below 500 fails immediately, exhaustion fails
wrapping the last recorded error. -/
def requestGo {α : Type} (att : ℕ → Attempt α) :
    ℕ → ℕ → Option (Attempt α) → List ℕ → List ℕ × ReqResult α
  | _, 0, lastError, waits => (waits, .exhausted lastError)
  | i, fuel + 1, lastError, waits =>
    match att i with
    | .ok v => (waits, .success v)
    | .httpError s =>
      if s < 500 then (waits, .clientError s)
      else requestGo att (i + 1) fuel (some (.httpError s)) (waits ++ [2 ^ i])
    | .transportError => requestGo att (i + 1) fuel (some .transportError) (waits ++ [2 ^ i])

/-- `PolymarketClient._request`: up to `MAX_RETRIES = 3` attempts, returning
the emitted backoff waits and the final outcome. -/
def request {α : Type} (att : ℕ → Attempt α) : List ℕ × ReqResult α :=
  requestGo att 0 MAX_RETRIES none []

/-- The raw shape of one Gamma listing item as `_parse_market`
(`api.py:180-216`) consumes it.  The JSON string-vs-native-list encoding of
the three parallel fields is normalised away in this model: a field is `none`
when absent and `some` of the decoded list otherwise (Python's falsy test
`not clob_ids_raw` also rejects an empty decoded list, covered by the
emptiness checks in `parseMarket`); prices arrive already converted to `ℚ`. -/
structure RawMarket where
  id : String := ""
  question : String := ""
  slug : String := ""
  outcomes : Option (List String) := none
  clobTokenIds : Option (List String) := none
  outcomePrices : Option (List ℚ) := none
  negRisk : Bool := false
  volume : ℚ := 0
  liquidity : ℚ := 0
  active : Bool := true
deriving DecidableEq, Repr

/-- `_parse_market` (`api.py:180-216`): reject records missing (or with
empty) `clobTokenIds` / `outcomePrices` / `outcomes`, or with fewer than 2
decoded instrument ids; otherwise build the `Market` carrying the decoded
lists verbatim. -/
def parseMarket (raw : RawMarket) : Option Market :=
  match raw.clobTokenIds, raw.outcomePrices, raw.outcomes with
  | some clobIds, some prices, some outcomeNames =>
    if clobIds.isEmpty ∨ prices.isEmpty ∨ outcomeNames.isEmpty then none
    else if clobIds.length < 2 then none
    else some {
      id := raw.id
      question := raw.question
      slug := raw.slug
      outcomes := outcomeNames
      clob_token_ids := clobIds
      outcome_prices := prices
      neg_risk := raw.negRisk
      volume := raw.volume
      liquidity := raw.liquidity
      active := raw.active }
  | _, _, _ => none

/-- `fetch_active_markets` (`api.py:106-125`) applied to one fetched page of
raw items: each item is parsed and kept when parsing yields a market; the
`parse` parameter returns `none` both when `_parse_market` returns `None`
and when it raises (the `except` clause swallows the error and skips the
item). -/
def fetchActiveMarkets (parse : RawMarket → Option Market) (items : List RawMarket) :
    List Market :=
  items.filterMap parse

/-- The `while offset < max_markets` paging loop of
`fetch_all_active_markets` (`api.py:127-138`): `fetchPage offset` is the
parsed batch the Gamma listing endpoint yields at that offset (the page size
is fixed at 100 in the source). -/
def fetchAllGo (fetchPage : ℕ → List Market) (maxMarkets offset : ℕ)
    (acc : List Market) : List Market :=
  if offset < maxMarkets then
    if hb : fetchPage offset = [] then acc
    else fetchAllGo fetchPage maxMarkets (offset + (fetchPage offset).length)
      (acc ++ fetchPage offset)
  else acc
termination_by maxMarkets - offset
decreasing_by
  have hlen : 0 < (fetchPage offset).length := List.length_pos.2 hb
  omega

/-- `fetch_all_active_markets`: page through until an empty page or the
requested maximum, then truncate to `max_markets`. -/
def fetchAllActiveMarkets (fetchPage : ℕ → List Market) (maxMarkets : ℕ) : List Market :=
  (fetchAllGo fetchPage maxMarkets 0 []).take maxMarkets

/-! ### Profit-guarantee estimator (`profit.py`)

`math.log` and `float('inf')` force this module into `ℝ` and `EReal`:
divergences live in `EReal` (the source returns `float('inf')` when a
current price is 0 against a positive target weight), the other scalars in
`ℝ`.  Divisions the source guards (`m / t` under `t > 0`, `gap / divergence`
under `divergence > 0`, where `EReal` division also matches Python's
`g / inf = 0.0`) use the total Lean operations; the normalisation divisions
of `evaluate_opportunity` are modelled with an explicitly checked division so
that reachability of a Python `ZeroDivisionError` shows up as a `none`
result. -/

noncomputable section
open scoped Classical

def MIN_DIVERGENCE_THRESHOLD : ℝ := 5 / 100

def DEFAULT_ALPHA : ℝ := 9 / 10

/-- The accumulation loop of `kl_divergence` (`profit.py:38-46`): skip terms
with `m ≤ 0`, return `+∞` as soon as `t ≤ 0` against `m > 0`, otherwise add
`m · ln(m/t)`. -/
def klAux : List (ℝ × ℝ) → EReal
  | [] => 0
  | (m, t) :: rest =>
    if m ≤ 0 then klAux rest
    else if t ≤ 0 then ⊤
    else ((m * Real.log (m / t) : ℝ) : EReal) + klAux rest

/-- `kl_divergence` (`profit.py:24-46`); `none` models the `ValueError`
raised on a length mismatch. -/
def klDivergence (mu theta : List ℝ) : Option EReal :=
  if mu.length = theta.length then some (klAux (mu.zip theta)) else none

/-- The gradient list of `frank_wolfe_gap` (`profit.py:76-82`). -/
def fwGrad (mu theta : List ℝ) : List ℝ :=
  (mu.zip theta).map fun p =>
    if p.1 ≤ 0 ∨ p.2 ≤ 0 then 0 else Real.log (p.1 / p.2) + 1

/-- Standard simplex vertices `e_1 … e_n` (`profit.py:69-74`). -/
def simplexVertices (n : ℕ) : List (List ℝ) :=
  (List.range n).map fun i => (List.range n).map fun j => if j = i then 1 else 0

/-- `⟨grad, μ - v⟩` (`profit.py:87`); `zip` truncates like Python's `zip`. -/
def innerGapTerm (grad mu v : List ℝ) : ℝ :=
  ((grad.zip (mu.zip v)).map fun p => p.1 * (p.2.1 - p.2.2)).sum

/-- `frank_wolfe_gap` (`profit.py:49-90`): the running maximum starts at
`float('-inf')`, hence the `⊥`-seeded fold in `EReal`; the final
`max(0.0, max_gap)` makes the result non-negative. -/
def frankWolfeGap (mu theta : List ℝ) (vertices : Option (List (List ℝ))) : EReal :=
  let vs := vertices.getD (simplexVertices mu.length)
  let grad := fwGrad mu theta
  max 0 (vs.foldl (fun acc v => max acc ((innerGapTerm grad mu v : ℝ) : EReal)) ⊥)

/-- `guaranteed_profit` (`profit.py:93-99`). -/
def guaranteedProfit (divergence gap : EReal) : EReal :=
  max 0 (divergence - gap)

/-- `alpha_extraction_check` (`profit.py:102-116`). -/
def alphaExtractionCheck (divergence gap : EReal) (alpha : ℝ) : Bool :=
  if divergence ≤ 0 then true
  else if gap ≤ ((1 - alpha : ℝ) : EReal) * divergence then true else false

/-- `extraction_percentage` (`profit.py:119-126`). -/
def extractionPercentage (divergence gap : EReal) : EReal :=
  if divergence ≤ 0 then 1 else max 0 (min 1 (1 - gap / divergence))

/-- `should_trade` (`profit.py:129-146`). -/
def shouldTrade (divergence gap : EReal) (alpha minThreshold : ℝ) : Bool :=
  if divergence < (minThreshold : EReal) then false
  else if alphaExtractionCheck divergence gap alpha then false
  else true

/-- `calculate_net_profit` (`profit.py:149-159`). -/
def calculateNetProfit (grossProfit : EReal) (feeRate : ℝ) : EReal :=
  if grossProfit ≤ 0 then 0 else grossProfit * ((1 - feeRate : ℝ) : EReal)

/-- Python's `round(x, 6)` on `ℝ` (tie-breaking idealised as in `round6`). -/
def r6 (x : ℝ) : ℝ := ((round (x * 1000000) : ℤ) : ℝ) / 1000000

def r4 (x : ℝ) : ℝ := ((round (x * 10000) : ℤ) : ℝ) / 10000

/-- `round(x, 6)` lifted to `EReal`: Python's `round` leaves `inf` alone. -/
def eround6 (x : EReal) : EReal :=
  if x = ⊤ ∨ x = ⊥ then x else ((r6 x.toReal : ℝ) : EReal)

def eround4 (x : EReal) : EReal :=
  if x = ⊤ ∨ x = ⊥ then x else ((r4 x.toReal : ℝ) : EReal)

structure ProfitGuarantee where
  kl_divergence : EReal
  fw_gap : EReal
  guaranteed_profit : EReal
  extraction_pct : EReal
  should_trade : Bool

/-- Checked real division: `none` marks a Python `ZeroDivisionError`. -/
def cdiv (a b : ℝ) : Option ℝ := if b = 0 then none else some (a / b)

/-- The list comprehension `[p / b for p in l]` with checked division. -/
def cdivList : List ℝ → ℝ → Option (List ℝ)
  | [], _ => some []
  | p :: rest, b => do
    let x ← cdiv p b
    let xs ← cdivList rest b
    pure (x :: xs)

/-- `evaluate_opportunity` (`profit.py:162-216`); `none` models an uncaught
exception (a division by zero in a normalisation, or the length-mismatch
`ValueError` out of `kl_divergence`). -/
def evaluateOpportunity (currentPrices : List ℝ) (targetPrices : Option (List ℝ))
    (alpha minThreshold feeRate : ℝ) : Option ProfitGuarantee :=
  let n := currentPrices.length
  let total := currentPrices.sum
  if total ≤ 0 then
    some ⟨0, 0, 0, 1, false⟩
  else do
    let theta ← cdivList currentPrices total
    let mu ← match targetPrices with
      | none => (cdiv 1 (n : ℝ)).map (List.replicate n ·)
      | some tp =>
        if 0 < tp.sum then cdivList tp tp.sum
        else (cdiv 1 (n : ℝ)).map (List.replicate n ·)
    let d ← klDivergence mu theta
    let g := frankWolfeGap mu theta none
    let gp := guaranteedProfit d g
    let net := calculateNetProfit gp feeRate
    let ext := extractionPercentage d g
    let trade := shouldTrade d g alpha minThreshold
    pure ⟨eround6 d, eround6 g, eround6 net, eround4 ext, trade⟩

/-- Spec-side formula for C2: the sum, over the indices where the target
weight is positive, of `μ_i · ln(μ_i/θ_i)` (a term with `μ_i = 0`
contributes 0). -/
def klSpecSum (mu theta : List ℝ) : ℝ :=
  ((mu.zip theta).map fun p => if 0 < p.1 then p.1 * Real.log (p.1 / p.2) else 0).sum

end

/-! ### Lemmas about the arbitrage evaluator -/

theorem mkOutcomesFromBooks_of_asks (market : Market) :
    ∀ (obs : List OrderBook) (i : ℕ), (∀ ob ∈ obs, ob.asks ≠ []) →
      ∃ outs, mkOutcomesFromBooks market i obs = some outs ∧
        outs.filterMap Outcome.best_ask = obs.filterMap OrderBook.bestAsk := by
  intro obs
  induction obs with
  | nil =>
    intro i _
    exact ⟨[], rfl, rfl⟩
  | cons ob rest ih =>
    intro i h
    have hob : ob.asks ≠ [] := h ob (List.mem_cons_self _ _)
    obtain ⟨lvl, tl, hl⟩ : ∃ lvl tl, ob.asks = lvl :: tl := by
      cases hasks : ob.asks with
      | nil => exact absurd hasks hob
      | cons a b => exact ⟨a, b, rfl⟩
    have hba : ob.bestAsk = some lvl.price := by
      simp [OrderBook.bestAsk, hl]
    obtain ⟨outs, hmk, hflt⟩ := ih (i + 1) (fun b hb => h b (List.mem_cons_of_mem _ hb))
    refine ⟨{ name := market.outcomes.getD i ""
              token_id := market.clob_token_ids.getD i ""
              price := market.outcome_prices.getD i 0
              best_ask := some lvl.price
              best_bid := ob.bestBid } :: outs, ?_, ?_⟩
    · simp only [mkOutcomesFromBooks, hba, hmk, Option.map_some']
    · simp [List.filterMap_cons, hflt, hba]

theorem evaluateArbitrage_spec (market : Market) (outcomes : List Outcome)
    (feeRate minProfit : ℚ) :
    ((evaluateArbitrage market outcomes feeRate minProfit).isSome ↔
      (outcomes.filterMap Outcome.best_ask).sum < 1 ∧
        minProfit ≤ (1 - (outcomes.filterMap Outcome.best_ask).sum) * (1 - feeRate)) ∧
    (∀ opp, evaluateArbitrage market outcomes feeRate minProfit = some opp →
      opp.total_cost = round6 ((outcomes.filterMap Outcome.best_ask).sum) ∧
      opp.gross_profit = round6 (1 - (outcomes.filterMap Outcome.best_ask).sum) ∧
      opp.net_profit =
        round6 ((1 - (outcomes.filterMap Outcome.best_ask).sum) * (1 - feeRate)) ∧
      opp.roi_pct = round4 (if 0 < (outcomes.filterMap Outcome.best_ask).sum then
          (1 - (outcomes.filterMap Outcome.best_ask).sum) * (1 - feeRate) /
            (outcomes.filterMap Outcome.best_ask).sum * 100
        else 0)) := by
  set t := (outcomes.filterMap Outcome.best_ask).sum with ht
  have hval : evaluateArbitrage market outcomes feeRate minProfit =
      (if 1 ≤ t then none
       else if (1 - t) * (1 - feeRate) < minProfit then none
       else some
        { market := market
          market_type := market.marketType
          outcomes := outcomes
          total_cost := round6 t
          gross_profit := round6 (1 - t)
          net_profit := round6 ((1 - t) * (1 - feeRate))
          roi_pct := round4 (if 0 < t then (1 - t) * (1 - feeRate) / t * 100 else 0)
          capital_required := round6 t }) := rfl
  rw [hval]
  by_cases h1 : 1 ≤ t
  · rw [if_pos h1]
    constructor
    · simp only [Option.isSome_none, Bool.false_eq_true, false_iff]
      rintro ⟨hlt, -⟩
      exact absurd hlt (not_lt.2 h1)
    · intro opp hopp
      simp at hopp
  · rw [if_neg h1]
    by_cases h2 : (1 - t) * (1 - feeRate) < minProfit
    · rw [if_pos h2]
      constructor
      · simp only [Option.isSome_none, Bool.false_eq_true, false_iff]
        rintro ⟨-, hge⟩
        exact absurd hge (not_le.2 h2)
      · intro opp hopp
        simp at hopp
    · rw [if_neg h2]
      constructor
      · simp only [Option.isSome_some, true_iff]
        exact ⟨not_le.1 h1, not_lt.1 h2⟩
      · intro opp hopp
        injection hopp with hopp
        subst hopp
        exact ⟨rfl, rfl, rfl, rfl⟩

/-- C1: for every market and every list of order books supplying one ask per
outcome (count matches the market's instrument list and every book has an
ask), the evaluator returns an opportunity iff `total_cost < 1` and
`net_profit = (1 - total_cost) * (1 - fee_rate)` is not below `min_profit`;
the returned opportunity carries `gross_profit = 1 - total_cost`,
`net_profit = gross_profit * (1 - fee_rate)` and
`roi_pct = net_profit / total_cost * 100` (`0` when `total_cost` is not
positive), each rounded only at the reporting boundary (6 decimal places, 4
for `roi_pct`). -/
theorem arbitrage_evaluator_correct (market : Market) (orderbooks : List OrderBook)
    (feeRate minProfit : ℚ)
    (hlen : orderbooks.length = market.clob_token_ids.length)
    (hasks : ∀ ob ∈ orderbooks, ob.asks ≠ []) :
    ((detectArbitrageFromOrderbooks market orderbooks feeRate minProfit).isSome ↔
      sumBestAsks orderbooks < 1 ∧
        minProfit ≤ (1 - sumBestAsks orderbooks) * (1 - feeRate)) ∧
    (∀ opp, detectArbitrageFromOrderbooks market orderbooks feeRate minProfit = some opp →
      opp.total_cost = round6 (sumBestAsks orderbooks) ∧
      opp.gross_profit = round6 (1 - sumBestAsks orderbooks) ∧
      opp.net_profit = round6 ((1 - sumBestAsks orderbooks) * (1 - feeRate)) ∧
      opp.roi_pct = round4 (if 0 < sumBestAsks orderbooks then
          (1 - sumBestAsks orderbooks) * (1 - feeRate) / sumBestAsks orderbooks * 100
        else 0)) := by
  obtain ⟨outs, hmk, hflt⟩ := mkOutcomesFromBooks_of_asks market orderbooks 0 hasks
  have hdet : detectArbitrageFromOrderbooks market orderbooks feeRate minProfit =
      evaluateArbitrage market outs feeRate minProfit := by
    unfold detectArbitrageFromOrderbooks
    rw [if_neg (by simp [hlen]), hmk]
  have hsum : (outs.filterMap Outcome.best_ask).sum = sumBestAsks orderbooks := by
    rw [hflt]; rfl
  have hspec := evaluateArbitrage_spec market outs feeRate minProfit
  rw [hsum] at hspec
  rw [hdet]
  exact hspec

theorem arbitrage_evaluator_correct_witness :
    (detectArbitrageFromOrderbooks
        ⟨"m", "q", "s", ["Yes", "No"], ["t1", "t2"], [1/2, 1/2], false, 0, 0, true⟩
        [⟨[], [⟨2/5, 10⟩]⟩, ⟨[], [⟨2/5, 5⟩]⟩] (2/100) (5/1000)).isSome ↔
      sumBestAsks [⟨[], [⟨2/5, 10⟩]⟩, ⟨[], [⟨2/5, 5⟩]⟩] < 1 ∧
        (5/1000 : ℚ) ≤ (1 - sumBestAsks [⟨[], [⟨2/5, 10⟩]⟩, ⟨[], [⟨2/5, 5⟩]⟩]) *
          (1 - 2/100) :=
  (arbitrage_evaluator_correct
    ⟨"m", "q", "s", ["Yes", "No"], ["t1", "t2"], [1/2, 1/2], false, 0, 0, true⟩
    [⟨[], [⟨2/5, 10⟩]⟩, ⟨[], [⟨2/5, 5⟩]⟩] (2/100) (5/1000)
    (by decide) (by decide)).1

/-! ### C9: behaviour at `net_profit == min_profit` exactly -/

theorem filterMap_some_snd_enumFrom (l : List ℚ) :
    ∀ i, List.filterMap (fun p : ℕ × ℚ => some p.2) (l.enumFrom i) = l := by
  induction l with
  | nil => intro i; rfl
  | cons a rest ih =>
    intro i
    simp only [List.enumFrom, List.filterMap_cons, ih (i + 1)]

theorem detectArbitrageFromPrices_filterMap (askPrices : List ℚ) (market : Market) :
    ((askPrices.enum.map fun p =>
      { name := market.outcomes.getD p.1 ""
        token_id := market.clob_token_ids.getD p.1 ""
        price := market.outcome_prices.getD p.1 0
        best_ask := some p.2
        best_bid := none : Outcome }).filterMap Outcome.best_ask) = askPrices := by
  rw [List.filterMap_map]
  have h : (Outcome.best_ask ∘ fun p : ℕ × ℚ =>
      { name := market.outcomes.getD p.1 ""
        token_id := market.clob_token_ids.getD p.1 ""
        price := market.outcome_prices.getD p.1 0
        best_ask := some p.2
        best_bid := none : Outcome }) = fun p : ℕ × ℚ => some p.2 := rfl
  rw [h]
  exact filterMap_some_snd_enumFrom askPrices 0

theorem detectArbitrageFromPrices_isSome_iff (market : Market) (askPrices : List ℚ)
    (feeRate minProfit : ℚ)
    (hlen : askPrices.length = market.clob_token_ids.length) :
    (detectArbitrageFromPrices market askPrices feeRate minProfit).isSome = true ↔
      askPrices.sum < 1 ∧ minProfit ≤ (1 - askPrices.sum) * (1 - feeRate) := by
  unfold detectArbitrageFromPrices
  rw [if_neg (by simp [hlen])]
  have hflt := detectArbitrageFromPrices_filterMap askPrices market
  have hspec := (evaluateArbitrage_spec market
    (askPrices.enum.map fun p =>
      { name := market.outcomes.getD p.1 ""
        token_id := market.clob_token_ids.getD p.1 ""
        price := market.outcome_prices.getD p.1 0
        best_ask := some p.2
        best_bid := none : Outcome }) feeRate minProfit).1
  rw [hflt] at hspec
  exact hspec

/-- C9 counterexample: at asks `[9/20, 9/20]` with `fee_rate = 1/50` the
computed net profit is exactly `49/500`; with `min_profit = 49/500` the
evaluator still emits an opportunity, refuting the claim that it rejects on
exact equality. -/
theorem net_profit_equality_counterexample :
    ((1 - ((9:ℚ)/20 + 9/20)) * (1 - 1/50) = 49/500) ∧
      (detectArbitrageFromPrices
        ⟨"m", "q", "s", ["Yes", "No"], ["t1", "t2"], [1/2, 1/2], false, 0, 0, true⟩
        [9/20, 9/20] (1/50) (49/500)).isSome = true := by
  refine ⟨by norm_num, ?_⟩
  rw [detectArbitrageFromPrices_isSome_iff _ _ _ _ (by decide)]
  constructor
  · simp only [List.sum_cons, List.sum_nil]
    norm_num
  · simp only [List.sum_cons, List.sum_nil]
    norm_num

/-- C9 amended: when the computed `net_profit` equals `min_profit` exactly
(and `total_cost < 1`), the evaluator emits an opportunity; it rejects only
when `net_profit` is strictly below `min_profit` (the code's strict test
`net_profit < min_profit` accepts equality). -/
theorem net_profit_equality_accepted (market : Market) (askPrices : List ℚ)
    (feeRate minProfit : ℚ)
    (hlen : askPrices.length = market.clob_token_ids.length)
    (hsum : askPrices.sum < 1)
    (heq : (1 - askPrices.sum) * (1 - feeRate) = minProfit) :
    (detectArbitrageFromPrices market askPrices feeRate minProfit).isSome = true := by
  rw [detectArbitrageFromPrices_isSome_iff market askPrices feeRate minProfit hlen]
  exact ⟨hsum, le_of_eq heq.symm⟩

/-! ### C5: pre-filter gates deep verification -/

/-- C5: within one Scanner cycle, deep verification is applied exactly to the
filtered markets whose embedded reference prices sum strictly below the
relaxed ceiling `1.02`; a market whose reference-price sum is `1.02` or more
is rejected by the pre-filter and never deep-verified. -/
theorem prefilter_gates_deep_verification (cfg : ScanConfig) (markets : List Market)
    (m : Market) :
    (m ∈ scanDeepTargets cfg markets ↔
      m ∈ filterMarkets cfg markets ∧ m.outcome_prices.sum < 51 / 50) ∧
    (51 / 50 ≤ m.outcome_prices.sum → m ∉ scanDeepTargets cfg markets) := by
  have hmem : m ∈ scanDeepTargets cfg markets ↔
      m ∈ filterMarkets cfg markets ∧ m.outcome_prices.sum < 51 / 50 := by
    simp [scanDeepTargets, prefilterWithMidpoints, List.mem_filter]
  refine ⟨hmem, fun hge hin => ?_⟩
  exact absurd (hmem.1 hin).2 (not_lt.2 hge)

theorem prefilter_gates_deep_verification_witness :
    (⟨"m", "q", "s", ["Yes", "No"], ["t1", "t2"], [3/5, 3/5], false, 0, 0, true⟩ :
        Market) ∉
      scanDeepTargets {}
        [⟨"m", "q", "s", ["Yes", "No"], ["t1", "t2"], [3/5, 3/5], false, 0, 0, true⟩] :=
  (prefilter_gates_deep_verification {}
    [⟨"m", "q", "s", ["Yes", "No"], ["t1", "t2"], [3/5, 3/5], false, 0, 0, true⟩]
    ⟨"m", "q", "s", ["Yes", "No"], ["t1", "t2"], [3/5, 3/5], false, 0, 0, true⟩).2
    (by norm_num)

/-! ### C3: circuit breaker and backoff of the scan loop -/

theorem startsWithFails_mono :
    ∀ (l : List ScanTick) (j k : ℕ), j ≤ k → startsWithFails k l = true →
      startsWithFails j l = true := by
  intro l
  induction l with
  | nil =>
    intro j k hjk hk
    match k, hk with
    | 0, _ =>
      have : j = 0 := Nat.le_zero.1 hjk
      subst this
      rfl
  | cons t ts ih =>
    intro j k hjk hk
    match j with
    | 0 => rfl
    | j' + 1 =>
      match k, hk with
      | k' + 1, hk =>
        cases t with
        | success => exact absurd hk (by simp [startsWithFails])
        | failure =>
          have hk' : startsWithFails k' ts = true := hk
          exact ih j' k' (Nat.succ_le_succ_iff.1 hjk) hk'

theorem startsWithFails_hasConsecFails {k : ℕ} :
    ∀ {l : List ScanTick}, startsWithFails k l = true → hasConsecFails k l = true := by
  intro l h
  cases l with
  | nil => exact h
  | cons t ts => simp [hasConsecFails, h]

theorem runLoop_halts_iff_aux (interval : ℕ) :
    ∀ (l : List ScanTick) (c b : ℕ), c < MAX_CONSECUTIVE_FAILURES →
      ((runLoop interval ⟨c, b⟩ l).2 = true ↔
        (startsWithFails (MAX_CONSECUTIVE_FAILURES - c) l = true ∨
          hasConsecFails MAX_CONSECUTIVE_FAILURES l = true)) := by
  have hM : MAX_CONSECUTIVE_FAILURES = 10 := rfl
  intro l
  induction l with
  | nil =>
    intro c b hc
    obtain ⟨k, hk⟩ : ∃ k, MAX_CONSECUTIVE_FAILURES - c = k + 1 :=
      ⟨MAX_CONSECUTIVE_FAILURES - c - 1, by rw [hM] at hc ⊢; omega⟩
    rw [hk]
    simp [runLoop, startsWithFails, hasConsecFails]
  | cons t ts ih =>
    intro c b hc
    cases t with
    | success =>
      have hsnd : (runLoop interval ⟨c, b⟩ (ScanTick.success :: ts)).2 =
          (runLoop interval ⟨0, INITIAL_BACKOFF⟩ ts).2 := rfl
      rw [hsnd, ih 0 INITIAL_BACKOFF (by rw [hM]; omega)]
      obtain ⟨k, hk⟩ : ∃ k, MAX_CONSECUTIVE_FAILURES - c = k + 1 :=
        ⟨MAX_CONSECUTIVE_FAILURES - c - 1, by rw [hM] at hc ⊢; omega⟩
    -- on the right of the goal the head tick is a success, so only the tail can
    -- contribute a failure run
      rw [hk, Nat.sub_zero]
      have hsw : startsWithFails (k + 1) (ScanTick.success :: ts) = false := rfl
      have hh : hasConsecFails MAX_CONSECUTIVE_FAILURES (ScanTick.success :: ts) =
          (startsWithFails MAX_CONSECUTIVE_FAILURES (ScanTick.success :: ts) ||
            hasConsecFails MAX_CONSECUTIVE_FAILURES ts) := rfl
      have hsw10 : startsWithFails MAX_CONSECUTIVE_FAILURES (ScanTick.success :: ts) =
          false := by rw [hM]; rfl
      rw [hsw, hh, hsw10]
      simp only [Bool.false_eq_true, false_or, Bool.false_or, Bool.or_eq_true]
      constructor
      · rintro (hs | hh')
        · exact startsWithFails_hasConsecFails hs
        · exact hh'
      · exact fun hh' => Or.inr hh'
    | failure =>
      by_cases hmax : MAX_CONSECUTIVE_FAILURES ≤ c + 1
      · have hls : loopStep interval ⟨c, b⟩ ScanTick.failure =
            (⟨c + 1, b⟩, [LoopAction.finalAlert], true) := by
          simp only [loopStep, if_pos hmax]
        have hsnd : (runLoop interval ⟨c, b⟩ (ScanTick.failure :: ts)).2 = true := by
          simp only [runLoop, hls]
        rw [hsnd]
        have h1 : MAX_CONSECUTIVE_FAILURES - c = 1 := by
          rw [hM] at hc hmax ⊢; omega
        rw [h1]
        have hsw1 : startsWithFails 1 (ScanTick.failure :: ts) = true := rfl
        simp [hsw1]
      · have hls : loopStep interval ⟨c, b⟩ ScanTick.failure =
            (⟨c + 1, min (b * 2) MAX_BACKOFF⟩, [LoopAction.sleepBackoff b], false) := by
          simp only [loopStep, if_neg hmax]
        have hsnd : (runLoop interval ⟨c, b⟩ (ScanTick.failure :: ts)).2 =
            (runLoop interval ⟨c + 1, min (b * 2) MAX_BACKOFF⟩ ts).2 := by
          simp only [runLoop, hls]
        have hc1 : c + 1 < MAX_CONSECUTIVE_FAILURES := Nat.lt_of_not_le hmax
        rw [hsnd, ih (c + 1) (min (b * 2) MAX_BACKOFF) hc1]
        obtain ⟨k, hk1, hk2, hk9⟩ : ∃ k, MAX_CONSECUTIVE_FAILURES - c = k + 1 ∧
            MAX_CONSECUTIVE_FAILURES - (c + 1) = k ∧ k ≤ 9 := by
          refine ⟨MAX_CONSECUTIVE_FAILURES - (c + 1), ?_, rfl, ?_⟩ <;>
            · rw [hM] at hc ⊢; omega
        rw [hk1, hk2]
        have hsw : startsWithFails (k + 1) (ScanTick.failure :: ts) =
            startsWithFails k ts := rfl
        have hh : hasConsecFails MAX_CONSECUTIVE_FAILURES (ScanTick.failure :: ts) =
            (startsWithFails 9 ts || hasConsecFails MAX_CONSECUTIVE_FAILURES ts) := by
          rw [hM]; rfl
        rw [hsw, hh]
        simp only [Bool.or_eq_true]
        constructor
        · rintro (hs | hh')
          · exact Or.inl hs
          · exact Or.inr (Or.inr hh')
        · rintro (hs | hs9 | hh')
          · exact Or.inl hs
          · exact Or.inl (startsWithFails_mono ts k 9 hk9 hs9)
          · exact Or.inr hh'

/-- C3: the scan loop halts (after a final alert) exactly when the trace
contains 10 consecutive uncaught scanner failures; a successful tick resets
the consecutive-failure counter to 0 and the backoff delay to its initial 30
time units; a non-final failure emits only a wait of the current backoff
delay (bypassing the inter-cycle wait) and doubles the backoff, capping it at
600 time units; the final failure emits the final alert and halts. -/
theorem scan_loop_circuit_breaker :
    (∀ (interval : ℕ) (ticks : List ScanTick),
      ((runLoop interval ⟨0, INITIAL_BACKOFF⟩ ticks).2 = true ↔
        hasConsecFails MAX_CONSECUTIVE_FAILURES ticks = true)) ∧
    (∀ (interval : ℕ) (s : LoopState),
      loopStep interval s .success =
        (⟨0, INITIAL_BACKOFF⟩, [.sleepInterval interval], false)) ∧
    (∀ (interval : ℕ) (s : LoopState),
      s.consecutive_failures + 1 < MAX_CONSECUTIVE_FAILURES →
      loopStep interval s .failure =
        (⟨s.consecutive_failures + 1, min (s.backoff * 2) MAX_BACKOFF⟩,
          [.sleepBackoff s.backoff], false)) ∧
    (∀ (interval : ℕ) (s : LoopState),
      MAX_CONSECUTIVE_FAILURES ≤ s.consecutive_failures + 1 →
      loopStep interval s .failure =
        (⟨s.consecutive_failures + 1, s.backoff⟩, [.finalAlert], true)) := by
  refine ⟨?_, ?_, ?_, ?_⟩
  · intro interval ticks
    rw [runLoop_halts_iff_aux interval ticks 0 INITIAL_BACKOFF (by decide)]
    rw [Nat.sub_zero]
    constructor
    · rintro (hs | hh)
      · exact startsWithFails_hasConsecFails hs
      · exact hh
    · exact fun hh => Or.inr hh
  · intro interval s
    rfl
  · intro interval s h
    simp only [loopStep, if_neg (Nat.not_le_of_lt h)]
  · intro interval s h
    simp only [loopStep, if_pos h]

theorem scan_loop_circuit_breaker_witness :
    (loopStep 60 ⟨2, 30⟩ .failure = (⟨3, min (30 * 2) 600⟩, [.sleepBackoff 30], false)) ∧
    (loopStep 60 ⟨9, 480⟩ .failure = (⟨10, 480⟩, [.finalAlert], true)) :=
  ⟨scan_loop_circuit_breaker.2.2.1 60 ⟨2, 30⟩ (by decide),
    scan_loop_circuit_breaker.2.2.2 60 ⟨9, 480⟩ (by decide)⟩

/-! ### C4: retry policy of the fetch client -/

theorem requestGo_ok {α : Type} (att : ℕ → Attempt α) (i fuel : ℕ)
    (lastError : Option (Attempt α)) (waits : List ℕ) (v : α) (h : att i = .ok v) :
    requestGo att i (fuel + 1) lastError waits = (waits, .success v) := by
  simp only [requestGo, h]

theorem requestGo_clientError {α : Type} (att : ℕ → Attempt α) (i fuel : ℕ)
    (lastError : Option (Attempt α)) (waits : List ℕ) (s : ℕ)
    (h : att i = .httpError s) (hs : s < 500) :
    requestGo att i (fuel + 1) lastError waits = (waits, .clientError s) := by
  simp only [requestGo, h, if_pos hs]

theorem requestGo_retryable {α : Type} (att : ℕ → Attempt α) (i fuel : ℕ)
    (lastError : Option (Attempt α)) (waits : List ℕ)
    (h : (att i).retryable = true) :
    requestGo att i (fuel + 1) lastError waits =
      requestGo att (i + 1) fuel (some (att i)) (waits ++ [2 ^ i]) := by
  cases hi : att i with
  | ok v => rw [hi] at h; simp [Attempt.retryable] at h
  | httpError s =>
    rw [hi] at h
    have hs : 500 ≤ s := by simpa [Attempt.retryable] using h
    simp only [requestGo, hi, if_neg (not_lt.2 hs)]
  | transportError =>
    simp only [requestGo, hi]

/-- C4: a 4xx response fails immediately with the API error and is never
retried; retryable failures (5xx, transport, timeout) are retried up to 3
total attempts with exponential backoff waits 1, 2, 4; and when all three
attempts fail retryably the call fails wrapping the last underlying error. -/
theorem request_retry_policy (α : Type) :
    (∀ (att : ℕ → Attempt α) (s : ℕ), att 0 = .httpError s → s < 500 →
      request att = ([], .clientError s)) ∧
    (∀ (att : ℕ → Attempt α) (v : α), att 0 = .ok v →
      request att = ([], .success v)) ∧
    (∀ (att : ℕ → Attempt α) (v : α), (att 0).retryable = true → att 1 = .ok v →
      request att = ([1], .success v)) ∧
    (∀ (att : ℕ → Attempt α) (v : α), (att 0).retryable = true →
      (att 1).retryable = true → att 2 = .ok v →
      request att = ([1, 2], .success v)) ∧
    (∀ (att : ℕ → Attempt α) (s : ℕ), (att 0).retryable = true →
      att 1 = .httpError s → s < 500 →
      request att = ([1], .clientError s)) ∧
    (∀ (att : ℕ → Attempt α), (att 0).retryable = true →
      (att 1).retryable = true → (att 2).retryable = true →
      request att = ([1, 2, 4], .exhausted (some (att 2)))) := by
  have hw0 : ([] : List ℕ) ++ [2 ^ 0] = [1] := rfl
  have hw1 : [1] ++ [2 ^ 1] = [1, 2] := rfl
  have hw2 : [1, 2] ++ [2 ^ 2] = [1, 2, 4] := rfl
  refine ⟨?_, ?_, ?_, ?_, ?_, ?_⟩
  · intro att s h0 hs
    exact requestGo_clientError att 0 2 none [] s h0 hs
  · intro att v h0
    exact requestGo_ok att 0 2 none [] v h0
  · intro att v h0 h1
    rw [request, show MAX_RETRIES = 3 from rfl,
      requestGo_retryable att 0 2 none [] h0, hw0]
    exact requestGo_ok att 1 1 (some (att 0)) [1] v h1
  · intro att v h0 h1 h2
    rw [request, show MAX_RETRIES = 3 from rfl,
      requestGo_retryable att 0 2 none [] h0, hw0,
      requestGo_retryable att 1 1 (some (att 0)) [1] h1, hw1]
    exact requestGo_ok att 2 0 (some (att 1)) [1, 2] v h2
  · intro att s h0 h1 hs
    rw [request, show MAX_RETRIES = 3 from rfl,
      requestGo_retryable att 0 2 none [] h0, hw0]
    exact requestGo_clientError att 1 1 (some (att 0)) [1] s h1 hs
  · intro att h0 h1 h2
    rw [request, show MAX_RETRIES = 3 from rfl,
      requestGo_retryable att 0 2 none [] h0, hw0,
      requestGo_retryable att 1 1 (some (att 0)) [1] h1, hw1,
      requestGo_retryable att 2 0 (some (att 1)) [1, 2] h2, hw2]
    rfl

theorem request_retry_policy_witness :
    request (fun _ => (Attempt.httpError 404 : Attempt ℕ)) =
      ([], ReqResult.clientError 404) :=
  (request_retry_policy ℕ).1 (fun _ => Attempt.httpError 404) 404 rfl (by decide)

/-! ### C6: paging and per-item parse-failure tolerance -/

/-- C6: `fetch_all_active_markets` pages through the listing endpoint,
stopping only when a fetched page is empty or the requested maximum has been
reached, and returns at most `max_markets` markets; a parse failure on an
individual listing item is skipped without aborting the page fetch. -/
theorem fetch_all_markets_paging :
    (∀ (fetchPage : ℕ → List Market) (maxMarkets : ℕ),
      (fetchAllActiveMarkets fetchPage maxMarkets).length ≤ maxMarkets) ∧
    (∀ (fetchPage : ℕ → List Market) (maxMarkets offset : ℕ) (acc : List Market),
      maxMarkets ≤ offset → fetchAllGo fetchPage maxMarkets offset acc = acc) ∧
    (∀ (fetchPage : ℕ → List Market) (maxMarkets offset : ℕ) (acc : List Market),
      fetchPage offset = [] → fetchAllGo fetchPage maxMarkets offset acc = acc) ∧
    (∀ (fetchPage : ℕ → List Market) (maxMarkets offset : ℕ) (acc : List Market),
      offset < maxMarkets → fetchPage offset ≠ [] →
      fetchAllGo fetchPage maxMarkets offset acc =
        fetchAllGo fetchPage maxMarkets (offset + (fetchPage offset).length)
          (acc ++ fetchPage offset)) ∧
    (∀ (parse : RawMarket → Option Market) (pre : List RawMarket) (item : RawMarket)
        (post : List RawMarket), parse item = none →
      fetchActiveMarkets parse (pre ++ item :: post) =
        fetchActiveMarkets parse (pre ++ post)) := by
  refine ⟨?_, ?_, ?_, ?_, ?_⟩
  · intro fetchPage maxMarkets
    rw [fetchAllActiveMarkets, List.length_take]
    exact min_le_left _ _
  · intro fetchPage maxMarkets offset acc h
    rw [fetchAllGo, if_neg (not_lt.2 h)]
  · intro fetchPage maxMarkets offset acc h
    rw [fetchAllGo]
    by_cases hlt : offset < maxMarkets
    · rw [if_pos hlt, dif_pos h]
    · rw [if_neg hlt]
  · intro fetchPage maxMarkets offset acc hlt hne
    rw [fetchAllGo, if_pos hlt, dif_neg hne]
  · intro parse pre item post h
    simp [fetchActiveMarkets, List.filterMap_append, List.filterMap_cons, h]

theorem fetch_all_markets_paging_witness :
    fetchAllGo (fun _ => []) 5 0 [] = [] :=
  fetch_all_markets_paging.2.2.1 (fun _ => []) 5 0 [] rfl

/-! ### C7: the parsed-market parallel-length invariant -/

/-- C7 counterexample: a raw record with one outcome name but two instrument
ids passes every check `_parse_market` performs and produces a `Market` whose
`outcomes` and `clob_token_ids` lists have different lengths, refuting the
claimed invariant `len(outcomes) == len(clob_token_ids)`. -/
theorem parse_market_length_counterexample :
    parseMarket ⟨"m", "q", "s", some ["Yes"], some ["t1", "t2"], some [1/2, 1/2],
        false, 0, 0, true⟩ =
      some ⟨"m", "q", "s", ["Yes"], ["t1", "t2"], [1/2, 1/2], false, 0, 0, true⟩ ∧
    (["Yes"] : List String).length ≠ (["t1", "t2"] : List String).length := by
  exact ⟨rfl, by decide⟩

/-- C7 amended: every `Market` produced by `_parse_market` has at least 2
instrument ids and carries the decoded outcome/instrument-id/price lists of
the raw record verbatim (so the parallel-length invariant holds exactly when
the raw record's decoded lists already have equal lengths); a record missing
any of the three parallel fields, or with fewer than 2 decoded instrument
ids, is rejected by returning `none`, not by raising. -/
theorem parse_market_guarantees (raw : RawMarket) :
    (∀ m, parseMarket raw = some m →
      2 ≤ m.clob_token_ids.length ∧
      raw.outcomes = some m.outcomes ∧
      raw.clobTokenIds = some m.clob_token_ids ∧
      raw.outcomePrices = some m.outcome_prices) ∧
    ((raw.clobTokenIds = none ∨ raw.outcomePrices = none ∨ raw.outcomes = none) →
      parseMarket raw = none) ∧
    (∀ clobIds, raw.clobTokenIds = some clobIds → clobIds.length < 2 →
      parseMarket raw = none) := by
  refine ⟨?_, ?_, ?_⟩
  · intro m hm
    match hcl : raw.clobTokenIds, hpr : raw.outcomePrices, hoc : raw.outcomes with
    | none, _, _ => rw [parseMarket, hcl] at hm; exact absurd hm (by simp)
    | some clobIds, none, _ => rw [parseMarket, hcl, hpr] at hm; exact absurd hm (by simp)
    | some clobIds, some prices, none =>
      rw [parseMarket, hcl, hpr, hoc] at hm; exact absurd hm (by simp)
    | some clobIds, some prices, some outcomeNames =>
      rw [parseMarket, hcl, hpr, hoc] at hm
      replace hm : (if clobIds.isEmpty ∨ prices.isEmpty ∨ outcomeNames.isEmpty then
            (none : Option Market)
          else if clobIds.length < 2 then none
          else some {
            id := raw.id
            question := raw.question
            slug := raw.slug
            outcomes := outcomeNames
            clob_token_ids := clobIds
            outcome_prices := prices
            neg_risk := raw.negRisk
            volume := raw.volume
            liquidity := raw.liquidity
            active := raw.active }) = some m := hm
      by_cases hemp : clobIds.isEmpty ∨ prices.isEmpty ∨ outcomeNames.isEmpty
      · rw [if_pos hemp] at hm; exact absurd hm (by simp)
      · rw [if_neg hemp] at hm
        by_cases hlen : clobIds.length < 2
        · rw [if_pos hlen] at hm; exact absurd hm (by simp)
        · rw [if_neg hlen] at hm
          injection hm with hm
          subst hm
          exact ⟨not_lt.1 hlen, rfl, rfl, rfl⟩
  · intro h
    rcases h with h | h | h
    · rw [parseMarket, h]
    · rw [parseMarket, h]
      cases raw.clobTokenIds <;> rfl
    · rw [parseMarket, h]
      cases raw.clobTokenIds <;> cases raw.outcomePrices <;> rfl
  · intro clobIds hcl hlen
    rw [parseMarket, hcl]
    cases hpr : raw.outcomePrices with
    | none => rfl
    | some prices =>
      cases hoc : raw.outcomes with
      | none => rfl
      | some outcomeNames =>
        show (if clobIds.isEmpty ∨ prices.isEmpty ∨ outcomeNames.isEmpty then
            (none : Option Market)
          else if clobIds.length < 2 then none
          else some {
            id := raw.id
            question := raw.question
            slug := raw.slug
            outcomes := outcomeNames
            clob_token_ids := clobIds
            outcome_prices := prices
            neg_risk := raw.negRisk
            volume := raw.volume
            liquidity := raw.liquidity
            active := raw.active }) = none
        by_cases hemp : clobIds.isEmpty ∨ prices.isEmpty ∨ outcomeNames.isEmpty
        · rw [if_pos hemp]
        · rw [if_neg hemp, if_pos hlen]

theorem parse_market_guarantees_witness :
    parseMarket ⟨"m", "q", "s", some ["Yes", "No"], none, some [1/2, 1/2],
        false, 0, 0, true⟩ = none :=
  (parse_market_guarantees _).2.1 (Or.inl rfl)

/-! ### C2: the KL divergence -/

theorem klAux_nil : klAux [] = 0 := rfl

theorem klAux_cons_skip (m t : ℝ) (l : List (ℝ × ℝ)) (h : m ≤ 0) :
    klAux ((m, t) :: l) = klAux l := by
  rw [klAux, if_pos h]

theorem klAux_cons_top (m t : ℝ) (l : List (ℝ × ℝ)) (hm : 0 < m) (ht : t ≤ 0) :
    klAux ((m, t) :: l) = ⊤ := by
  rw [klAux, if_neg (not_le.2 hm), if_pos ht]

theorem klAux_cons_add (m t : ℝ) (l : List (ℝ × ℝ)) (hm : 0 < m) (ht : 0 < t) :
    klAux ((m, t) :: l) =
      ((m * Real.log (m / t) : ℝ) : EReal) + klAux l := by
  rw [klAux, if_neg (not_le.2 hm), if_neg (not_le.2 ht)]

theorem klAux_eq (l : List (ℝ × ℝ)) (hpos : ∀ p ∈ l, 0 ≤ p.2) :
    klAux l = if ∃ p ∈ l, 0 < p.1 ∧ p.2 = 0 then ⊤
      else (((l.map fun p => if 0 < p.1 then p.1 * Real.log (p.1 / p.2) else 0).sum : ℝ) :
        EReal) := by
  induction l with
  | nil => simp [klAux]
  | cons hd tl ih =>
    obtain ⟨m, t⟩ := hd
    have htl := ih fun p hp => hpos p (List.mem_cons_of_mem _ hp)
    have ht0 : 0 ≤ t := hpos (m, t) (List.mem_cons_self _ _)
    by_cases hm : m ≤ 0
    · rw [klAux_cons_skip m t tl hm, htl]
      have hbad : (∃ p ∈ (m, t) :: tl, 0 < p.1 ∧ p.2 = 0) ↔
          (∃ p ∈ tl, 0 < p.1 ∧ p.2 = 0) := by
        constructor
        · rintro ⟨p, hp, h1, h2⟩
          rcases List.mem_cons.1 hp with rfl | hp'
          · exact absurd h1 (not_lt.2 hm)
          · exact ⟨p, hp', h1, h2⟩
        · rintro ⟨p, hp, h1, h2⟩
          exact ⟨p, List.mem_cons_of_mem _ hp, h1, h2⟩
      by_cases hb : ∃ p ∈ tl, 0 < p.1 ∧ p.2 = 0
      · rw [if_pos hb, if_pos (hbad.2 hb)]
      · rw [if_neg hb, if_neg (fun hc => hb (hbad.1 hc))]
        have hhd : (if 0 < m then m * Real.log (m / t) else 0) = 0 :=
          if_neg (not_lt.2 hm)
        rw [List.map_cons, List.sum_cons, hhd, zero_add]
    · push_neg at hm
      by_cases ht : t ≤ 0
      · have htz : t = 0 := le_antisymm ht ht0
        rw [klAux_cons_top m t tl hm ht,
          if_pos ⟨(m, t), List.mem_cons_self _ _, hm, htz⟩]
      · push_neg at ht
        rw [klAux_cons_add m t tl hm ht, htl]
        have hbad : (∃ p ∈ (m, t) :: tl, 0 < p.1 ∧ p.2 = 0) ↔
            (∃ p ∈ tl, 0 < p.1 ∧ p.2 = 0) := by
          constructor
          · rintro ⟨p, hp, h1, h2⟩
            rcases List.mem_cons.1 hp with rfl | hp'
            · exact absurd h2 (ne_of_gt ht)
            · exact ⟨p, hp', h1, h2⟩
          · rintro ⟨p, hp, h1, h2⟩
            exact ⟨p, List.mem_cons_of_mem _ hp, h1, h2⟩
        by_cases hb : ∃ p ∈ tl, 0 < p.1 ∧ p.2 = 0
        · rw [if_pos hb, if_pos (hbad.2 hb), EReal.coe_add_top]
        · rw [if_neg hb, if_neg (fun hc => hb (hbad.1 hc))]
          rw [List.map_cons, List.sum_cons, if_pos hm, EReal.coe_add]

theorem klAux_self_zip (l : List ℝ) : klAux (l.zip l) = 0 := by
  induction l with
  | nil => rfl
  | cons a tl ih =>
    rw [List.zip_cons_cons]
    by_cases ha : a ≤ 0
    · rw [klAux_cons_skip a a _ ha, ih]
    · push_neg at ha
      rw [klAux_cons_add a a _ ha ha, div_self (ne_of_gt ha), Real.log_one,
        mul_zero, ih, EReal.coe_zero, zero_add]

/-- C2: for equal-length nonnegative-price vectors, `kl_divergence μ θ` is
the sum over indices with `μ_i > 0` of `μ_i · ln(μ_i/θ_i)` (terms with
`μ_i = 0` contribute nothing) and is `+∞` whenever some `θ_i = 0` against
`μ_i > 0`; the divergence of two identical distributions is 0; and the
divergence is asymmetric: there are non-identical distributions with
`D(μ‖θ) ≠ D(θ‖μ)`. -/
theorem kl_divergence_correct :
    (∀ mu theta : List ℝ, mu.length = theta.length → (∀ t ∈ theta, 0 ≤ t) →
      klDivergence mu theta =
        some (if ∃ p ∈ mu.zip theta, 0 < p.1 ∧ p.2 = 0 then ⊤
          else (klSpecSum mu theta : EReal))) ∧
    (∀ mu : List ℝ, klDivergence mu mu = some 0) ∧
    (∃ mu theta : List ℝ, mu.length = theta.length ∧
      klDivergence mu theta ≠ klDivergence theta mu) := by
  refine ⟨?_, ?_, ?_⟩
  · intro mu theta hlen hth
    rw [klDivergence, if_pos hlen]
    congr 1
    have hpos : ∀ p ∈ mu.zip theta, 0 ≤ p.2 := by
      rintro ⟨a, b⟩ hp
      exact hth b (List.mem_zip hp).2
    exact klAux_eq (mu.zip theta) hpos
  · intro mu
    rw [klDivergence, if_pos rfl, klAux_self_zip]
  · refine ⟨[1, 0], [1/2, 1/2], rfl, ?_⟩
    have h1 : klDivergence [1, 0] [1/2, 1/2] =
        some (((1 * Real.log (1 / (1/2)) : ℝ) : EReal)) := by
      rw [klDivergence, if_pos (show ([(1 : ℝ), 0]).length = ([(1 : ℝ)/2, 1/2]).length from rfl),
        show ([(1 : ℝ), 0].zip [(1 : ℝ)/2, 1/2]) =
          [((1 : ℝ), (1 : ℝ)/2), ((0 : ℝ), (1 : ℝ)/2)] from rfl,
        klAux_cons_add 1 (1/2) _ one_pos (by norm_num),
        klAux_cons_skip 0 (1/2) _ le_rfl, klAux_nil, add_zero]
    have h2 : klDivergence [1/2, 1/2] [1, 0] = some ⊤ := by
      rw [klDivergence, if_pos (show ([(1 : ℝ)/2, 1/2]).length = ([(1 : ℝ), 0]).length from rfl),
        show ([(1 : ℝ)/2, 1/2].zip [(1 : ℝ), 0]) =
          [((1 : ℝ)/2, (1 : ℝ)), ((1 : ℝ)/2, (0 : ℝ))] from rfl,
        klAux_cons_add (1/2) 1 _ (by norm_num) one_pos,
        klAux_cons_top (1/2) 0 _ (by norm_num) le_rfl, EReal.coe_add_top]
    rw [h1, h2]
    intro hc
    injection hc with hc
    exact EReal.coe_ne_top _ hc

theorem kl_divergence_correct_witness :
    klDivergence [(1 : ℝ), 0] [(1 : ℝ)/2, 1/2] =
      some (if ∃ p ∈ ([(1 : ℝ), 0].zip [(1 : ℝ)/2, 1/2]), 0 < p.1 ∧ p.2 = 0 then ⊤
        else (klSpecSum [(1 : ℝ), 0] [(1 : ℝ)/2, 1/2] : EReal)) :=
  kl_divergence_correct.1 [1, 0] [1/2, 1/2] rfl (by
    intro t ht
    rcases List.mem_cons.1 ht with rfl | ht'
    · norm_num
    · rcases List.mem_cons.1 ht' with rfl | ht''
      · norm_num
      · simp at ht'')

/-! ### C8: the stop-trading decision -/

/-- C8: `should_trade D g` is true iff the divergence meets the minimum
threshold and the gap still exceeds `(1 − α) · D`; failing either condition
yields false. -/
theorem should_trade_iff (D g alpha minThreshold : ℝ) (hmin : 0 < minThreshold) :
    shouldTrade (D : EReal) (g : EReal) alpha minThreshold = true ↔
      minThreshold ≤ D ∧ (1 - alpha) * D < g := by
  rw [shouldTrade]
  by_cases hD : D < minThreshold
  · rw [if_pos (EReal.coe_lt_coe_iff.2 hD)]
    simp [not_le.2 hD]
  · rw [if_neg (fun hc => hD (EReal.coe_lt_coe_iff.1 hc))]
    have hDpos : 0 < D := lt_of_lt_of_le hmin (not_lt.1 hD)
    have hne0 : ¬ ((D : EReal) ≤ 0) := fun hc =>
      absurd (EReal.coe_nonpos.1 hc) (not_le.2 hDpos)
    by_cases hg : g ≤ (1 - alpha) * D
    · have hcheck : alphaExtractionCheck (D : EReal) (g : EReal) alpha = true := by
        rw [alphaExtractionCheck, if_neg hne0,
          if_pos (by rw [← EReal.coe_mul]; exact EReal.coe_le_coe_iff.2 hg)]
      rw [hcheck]
      simp [not_lt.2 hg]
    · have hcheck : alphaExtractionCheck (D : EReal) (g : EReal) alpha = false := by
        rw [alphaExtractionCheck, if_neg hne0,
          if_neg (by rw [← EReal.coe_mul]; exact fun hc => hg (EReal.coe_le_coe_iff.1 hc))]
      rw [hcheck]
      simp [not_lt.1 hD, not_le.1 hg]

theorem should_trade_iff_witness :
    (0 : ℝ) < 5/100 ∧
      (shouldTrade ((6/100 : ℝ) : EReal) ((1/100 : ℝ) : EReal) (9/10) (5/100) = true ↔
        (5/100 : ℝ) ≤ 6/100 ∧ ((1 : ℝ) - 9/10) * (6/100) < 1/100) :=
  ⟨by norm_num, should_trade_iff (6/100) (1/100) (9/10) (5/100) (by norm_num)⟩

/-! ### C10: totality of `evaluate_opportunity` -/

theorem cdivList_of_ne (l : List ℝ) (b : ℝ) (hb : b ≠ 0) :
    cdivList l b = some (l.map (· / b)) := by
  induction l with
  | nil => rfl
  | cons p rest ih => simp [cdivList, cdiv, hb, ih]

/-- C10: `evaluate_opportunity` is total on every current-price list (with
the default target): no division by zero or other failure is reachable, and
when the prices sum to zero or less it returns the
`(0, 0, 0, 1.0, no-trade)` guarantee. -/
theorem evaluate_opportunity_total (currentPrices : List ℝ)
    (alpha minThreshold feeRate : ℝ) :
    (∃ g, evaluateOpportunity currentPrices none alpha minThreshold feeRate = some g) ∧
    (currentPrices.sum ≤ 0 →
      evaluateOpportunity currentPrices none alpha minThreshold feeRate =
        some ⟨0, 0, 0, 1, false⟩) := by
  by_cases h : currentPrices.sum ≤ 0
  · have he : evaluateOpportunity currentPrices none alpha minThreshold feeRate =
        some ⟨0, 0, 0, 1, false⟩ := by
      simp only [evaluateOpportunity]
      rw [if_pos h]
    exact ⟨⟨_, he⟩, fun _ => he⟩
  · have hpos : 0 < currentPrices.sum := not_le.1 h
    have hne : currentPrices.sum ≠ 0 := ne_of_gt hpos
    have hnil : currentPrices ≠ [] := by
      intro e
      rw [e] at hpos
      simp at hpos
    have hn : (currentPrices.length : ℝ) ≠ 0 :=
      Nat.cast_ne_zero.2 (Nat.pos_iff_ne_zero.1 (List.length_pos.2 hnil))
    have he : ∃ g, evaluateOpportunity currentPrices none alpha minThreshold feeRate =
        some g := by
      simp only [evaluateOpportunity]
      rw [if_neg h, cdivList_of_ne _ _ hne,
        show cdiv 1 (currentPrices.length : ℝ) =
          some (1 / (currentPrices.length : ℝ)) from by rw [cdiv, if_neg hn]]
      simp only [Option.map_some', Option.bind_eq_bind', Option.some_bind']
      rw [klDivergence, if_pos (by simp)]
      simp only [Option.bind_eq_bind', Option.some_bind']
      exact ⟨_, rfl⟩
    exact ⟨he, fun hc => absurd hc h⟩

theorem evaluate_opportunity_total_witness :
    evaluateOpportunity [(-1 : ℝ), 1/2] none (9/10) (5/100) (2/100) =
      some ⟨0, 0, 0, 1, false⟩ :=
  (evaluate_opportunity_total [(-1 : ℝ), 1/2] (9/10) (5/100) (2/100)).2 (by norm_num)

theorem net_profit_equality_accepted_witness :
    (detectArbitrageFromPrices
      ⟨"m", "q", "s", ["Yes", "No"], ["t1", "t2"], [1/2, 1/2], false, 0, 0, true⟩
      [2/5, 2/5] (1/50) (49/250)).isSome = true :=
  net_profit_equality_accepted
    ⟨"m", "q", "s", ["Yes", "No"], ["t1", "t2"], [1/2, 1/2], false, 0, 0, true⟩
    [2/5, 2/5] (1/50) (49/250) (by decide) (by norm_num) (by norm_num)

end Polytrage
